import Mathlib

/-!
Verification of the gulp build pipeline of `mlsnippet/report/frontend`
(`gulpfile.js`).

The gulpfile defines five tasks (`sass-preprocessor`, `css`, `ipython-css`,
`js`, `html`) plus a `default` task that only aggregates dependencies.  Each
task is a straight-line gulp stream: it reads some source files, applies a
sequence of content transforms and writes the results to destination
directories.

We embed this shallowly:

* a file system is an association list from paths to contents, both modelled
  as `List Char`; a write prepends a binding and removes the shadowed one;
* each third-party transform used by the gulpfile (`gulp-sass`, `autoprefixer`,
  `postcss-import`, `cssnano`, `gulp-babel`, `gulp-uglify`, `gulp-htmlmin`)
  is an abstract endofunction on contents, collected in a `Transforms` record;
  the pipeline structure (which files are read, in which order the transforms
  are composed, and where the results are written) is translated concretely
  from the gulpfile;
* the two regex substitutions that the gulpfile performs itself
  (`replace(/^@import (["'])~(.*?)\1/gm, ...)` in `sass-preprocessor` and the
  two non-global placeholder replacements in `html`) are translated as
  executable functions on `List Char`;
* gulp-3 task sequencing (`gulp.task(name, deps, fn)`) is modelled by
  dependency-respecting schedules: lists of tasks in which every task is
  preceded by all of its declared dependencies (gulp runs independent tasks
  concurrently; since each task acts atomically on the file system, a run of
  the build is an arbitrary dependency-respecting interleaving).
-/

/-! ## File system model -/

/-- A path, as a list of characters. -/
abbrev FPath := List Char

/-- File contents, as a list of characters (bytes of the file). -/
abbrev FContent := List Char

/-- A file system: an association list from paths to contents.
`read` returns the first binding, and `write` keeps at most one binding per
path, so the list behaves as a finite map. -/
abbrev FS := List (FPath × FContent)

/-- Read a file: the first binding for the path, if any. -/
def FS.read (fs : FS) (p : FPath) : Option FContent :=
  fs.lookup p

/-- Write a file: prepend the new binding and delete any previous binding for
the same path. -/
def FS.write (fs : FS) (p : FPath) (c : FContent) : FS :=
  (p, c) :: fs.filter (fun e => ¬ (e.1 = p))

/-- A single write of a task: destination path and content. -/
abbrev Write := FPath × FContent

/-- Apply a list of writes to a file system, in order (later writes win). -/
def applyWrites (fs : FS) (ws : List Write) : FS :=
  ws.foldl (fun a w => a.write w.1 w.2) fs

/-! ## Globs, base names and the `.scss` → `.css` rename -/

/-- A glob of the shape `dir/*.ext`: the path has `dir` (ending in `/`) as a
prefix, no further directory separator, and `ext` as a suffix. -/
def globMatch (dir ext p : FPath) : Bool :=
  dir.isPrefixOf p && (p.drop dir.length).all (fun c => c != '/') &&
    ext.isSuffixOf p

/-- `gulp.src` on a glob: the files of the file system matching it, in file
system order. -/
def srcGlob (dir ext : FPath) (fs : FS) : FS :=
  fs.filter (fun e => globMatch dir ext e.1)

/-- The base name of a path: everything after the last `/` (gulp records each
globbed file by its path relative to the glob base, and `gulp.dest` joins it
to the destination directory). -/
def baseName (p : FPath) : FPath :=
  (p.reverse.takeWhile (fun c => c != '/')).reverse

/-- `gulp-sass` renames each compiled file from `.scss` to `.css`. -/
def chExt (b : FPath) : FPath :=
  if (".scss".toList).isSuffixOf b then
    b.take (b.length - 5) ++ ".css".toList
  else b

/-! ## The `sass-preprocessor` substitution

`replace(/^@import (["'])~(.*?)\1/gm, '@import "$2"')`: in multiline mode the
anchor `^` matches only at line starts, `.` does not cross a line break, and
the lazy group stops at the first repeated quote, so the substitution acts
line by line and rewrites at most one import per line. -/

/-- The single-quote character (char code 39). -/
def squote : Char := Char.ofNat 39

/-- The text the regex must find at a line start: `@import `, a quote
character `q`, then `~`. -/
def importTildeStart (q : Char) : FContent :=
  "@import ".toList ++ [q, '~']

/-- Rewrite of a matched line: `rest` is the text after the tilde; the
lazy group is everything up to the first closing quote `q`, and the
replacement `@import "$2"` normalises the quotes to `"`. If `q` never
recurs on the line, the regex does not match and the line is unchanged. -/
def rewriteQuote (q : Char) (l rest : FContent) : FContent :=
  match rest.dropWhile (fun c => c != q) with
  | [] => l
  | _ :: r2 => "@import \"".toList ++ rest.takeWhile (fun c => c != q) ++ '"' :: r2

/-- The regex substitution restricted to one line. -/
def rewriteLine (l : FContent) : FContent :=
  if (importTildeStart '"').isPrefixOf l then rewriteQuote '"' l (l.drop 10)
  else if (importTildeStart squote).isPrefixOf l then rewriteQuote squote l (l.drop 10)
  else l

/-- Whether the regex matches on a given line. -/
def lineMatches (l : FContent) : Bool :=
  ((importTildeStart '"').isPrefixOf l && (l.drop 10).contains '"') ||
    ((importTildeStart squote).isPrefixOf l && (l.drop 10).contains squote)

/-- The whole-file substitution of the `sass-preprocessor` task. -/
def tildeStrip (c : FContent) : FContent :=
  List.intercalate ['\n'] ((c.splitOn '\n').map rewriteLine)

/-! ## The `html` placeholder replacements

`gulp-replace` with a non-global regex behaves as JavaScript
`String.replace`: only the leftmost match is replaced.  Both placeholder
regexes have the shape `lit1 [^>]* '>' lit2` (with `lit2` empty for the CSS
`<link>` tag and `</script>` for the JS tag); since `[^>]*` cannot cross a
`>`, the match at a given position is deterministic. -/

/-- A placeholder pattern: a literal opening, `[^>]*`, `>`, a literal tail. -/
structure TagPat where
  lit1 : FContent
  lit2 : FContent

/-- Try to match a pattern at the start of `s`; on success return the matched
text and the remainder of `s`. -/
def matchAt (pat : TagPat) (s : FContent) : Option (FContent × FContent) :=
  if pat.lit1.isPrefixOf s then
    let r := s.drop pat.lit1.length
    match r.dropWhile (fun c => c != '>') with
    | '>' :: r2 =>
      if pat.lit2.isPrefixOf r2 then
        some (pat.lit1 ++ r.takeWhile (fun c => c != '>') ++ '>' :: pat.lit2,
          r2.drop pat.lit2.length)
      else none
    | _ => none
  else none

/-- JavaScript `String.replace` with a non-global regex: replace the leftmost
match, applying `f` to the matched text. -/
def replaceFirst (pat : TagPat) (f : FContent → FContent) : FContent → FContent
  | [] => []
  | c :: cs =>
    match matchAt pat (c :: cs) with
    | some (m, rest) => f m ++ rest
    | none => c :: replaceFirst pat f cs

/-- `/<link href="bundle\.css"[^>]*>/` -/
def cssPat : TagPat := ⟨"<link href=\"bundle.css\"".toList, []⟩

/-- `/<script src="bundle\.js"[^>]*><\/script>/` -/
def jsPat : TagPat := ⟨"<script src=\"bundle.js\"".toList, "</script>".toList⟩

/-- The replacement for the CSS placeholder:
`'<style>\n' + style + '\n</style>'`. -/
def styleElem (style : FContent) : FContent :=
  "<style>\n".toList ++ style ++ "\n</style>".toList

/-- The replacement for the JS placeholder:
`'<script type="text/javascript">\n' + script + '\n</script>'`. -/
def scriptElem (script : FContent) : FContent :=
  "<script type=\"text/javascript\">\n".toList ++ script ++ "\n</script>".toList

/-- First `replace` of the `html` task (the callback ignores the matched
text and returns the inlined `<style>` element). -/
def inlineCss (style c : FContent) : FContent :=
  replaceFirst cssPat (fun _ => styleElem style) c

/-- Second `replace` of the `html` task. -/
def inlineJs (script c : FContent) : FContent :=
  replaceFirst jsPat (fun _ => scriptElem script) c

/-! ## Paths fixed by the gulpfile -/

/-- `const requireJsPath = 'node_modules/requirejs/require.js';` -/
def requireJsPath : FPath := "node_modules/requirejs/require.js".toList

/-- The single application script, `src/js/main.js`. -/
def mainJsSrcPath : FPath := "src/js/main.js".toList

/-- The compiled stylesheet read by the `html` task (`dist/main.css`). -/
def distMainCss : FPath := "dist/main.css".toList

/-- The bundled script written by `js` and read by `html` (`dist/main.js`). -/
def distMainJs : FPath := "dist/main.js".toList

/-- The compiled ipython stylesheet (`dist/ipython.css`). -/
def distIpythonCss : FPath := "dist/ipython.css".toList

/-- Destination of the `ipython-css` copy. -/
def templatesIpythonCss : FPath := "../templates/ipython.css".toList

/-- Base directory of the glob `src/scss/*.scss`. -/
def scssSrcDir : FPath := "src/scss/".toList

/-- Base directory of the glob `dist/scss/*.scss` (and destination of
`sass-preprocessor`). -/
def scssDistDir : FPath := "dist/scss/".toList

/-- Base directory of the glob `src/html/*.html`. -/
def htmlSrcDir : FPath := "src/html/".toList

/-- Extension of the stylesheet globs. -/
def scssExt : FPath := ".scss".toList

/-- Extension of the template glob. -/
def htmlExt : FPath := ".html".toList

/-- The build output directory `dist`. -/
def distDir : FPath := "dist/".toList

/-- The templates directory `../templates`. -/
def templatesDir : FPath := "../templates/".toList

/-- The source file the `css` task compiles into `dist/main.css`. -/
def srcScssMain : FPath := "src/scss/main.scss".toList

/-! ## The tasks -/

/-- The third-party content transforms invoked by the gulpfile, kept
abstract: the pipeline composes them but does not inspect them. -/
structure Transforms where
  sass : FContent → FContent
  autoprefixer : FContent → FContent
  atImport : FContent → FContent
  cssnano : FContent → FContent
  babel : FContent → FContent
  uglify : FContent → FContent
  htmlmin : FContent → FContent

/-- Identity instantiation of the transforms, for concrete evaluation. -/
def idTransforms : Transforms := ⟨id, id, id, id, id, id, id⟩

/-- The compilation chain of the `css` task:
`sass({includePaths})` then `postcss([autoprefixer(), atImport(...), cssnano()])`
(postcss runs its plugins in array order). -/
def cssCompile (T : Transforms) (c : FContent) : FContent :=
  T.cssnano (T.atImport (T.autoprefixer (T.sass c)))

/-- Per-template output of the `html` task: the two placeholder
substitutions (CSS first, then JS, reading the bundles from `dist`), then
`htmlmin({collapseWhitespace: true})`.  A missing bundle is modelled as empty
content; the claims that use this supply both bundles. -/
def htmlOut (T : Transforms) (fs : FS) (c : FContent) : FContent :=
  T.htmlmin (inlineJs ((fs.read distMainJs).getD [])
    (inlineCss ((fs.read distMainCss).getD []) c))

/-- Write lists of streams of the shape `src(glob) → transform → dest(dir)`:
one write per globbed file. -/
def mapWrites (name : FPath → FPath) (tr : FContent → FContent) (g : FS) :
    List Write :=
  g.map (fun e => (name e.1, tr e.2))

/-- Write list of the `html` task: each transformed template goes to `dist`
(preview) and then to `../templates` (publishing), in stream order. -/
def htmlWrites (T : Transforms) (fs0 : FS) (g : FS) : List Write :=
  (g.map (fun e =>
    [(distDir ++ baseName e.1, htmlOut T fs0 e.2),
     (templatesDir ++ baseName e.1, htmlOut T fs0 e.2)])).flatten

/-- The gulp tasks (besides `default`, which only aggregates its
dependencies and performs no work of its own). -/
inductive GTask where
  | sassPreprocessor
  | css
  | ipythonCss
  | js
  | html
deriving DecidableEq

/-- The dependency lists of `gulp.task(name, deps, fn)`. -/
def deps : GTask → List GTask
  | .sassPreprocessor => []
  | .css => [.sassPreprocessor]
  | .ipythonCss => [.css]
  | .js => []
  | .html => [.css, .js]

/-- `gulp.task('default', ['html', 'ipython-css'])`. -/
def defaultTaskDeps : List GTask := [.html, .ipythonCss]

/-- The writes performed by one run of a task on a given file system.

* `sass-preprocessor`: `src('src/scss/*.scss') → replace(tilde regex) →
  dest('dist/scss')`;
* `css`: `src('dist/scss/*.scss') → sass → postcss([autoprefixer, atImport,
  cssnano]) → dest('dist')` (gulp-sass renames `.scss` to `.css`);
* `ipython-css`: `src('dist/ipython.css') → dest('../templates')`;
* `js`: `src([requireJsPath, 'src/js/main.js']) → concat('main.js') →
  babel({presets: ['env']}) → uglify → dest('dist')` (gulp-concat joins the
  files, in the listed order, with a newline);
* `html`: `src('src/html/*.html') → replace(css placeholder) → replace(js
  placeholder) → htmlmin → dest('dist') → dest('../templates')`. -/
def taskWrites (T : Transforms) (t : GTask) (fs : FS) : List Write :=
  match t with
  | .sassPreprocessor =>
    mapWrites (fun p => scssDistDir ++ baseName p) tildeStrip
      (srcGlob scssSrcDir scssExt fs)
  | .css =>
    mapWrites (fun p => distDir ++ chExt (baseName p)) (cssCompile T)
      (srcGlob scssDistDir scssExt fs)
  | .ipythonCss =>
    match fs.read distIpythonCss with
    | some c => [(templatesIpythonCss, c)]
    | none => []
  | .js =>
    match [requireJsPath, mainJsSrcPath].filterMap (fun p => fs.read p) with
    | [] => []
    | f :: rest =>
      [(distMainJs, T.uglify (T.babel (List.intercalate ['\n'] (f :: rest))))]
  | .html =>
    htmlWrites T fs (srcGlob htmlSrcDir htmlExt fs)

/-- Run one task: apply its writes to the file system. -/
def runTask (T : Transforms) (t : GTask) (fs : FS) : FS :=
  applyWrites fs (taskWrites T t fs)

/-- Run a schedule of tasks in order. -/
def runSched (T : Transforms) (ts : List GTask) (fs : FS) : FS :=
  ts.foldl (fun a t => runTask T t a) fs

/-- Check that a schedule respects the task dependencies: scanning left to
right, every task finds all of its declared dependencies already done. -/
def validSchedAux (done : List GTask) : List GTask → Bool
  | [] => true
  | t :: rest =>
    (deps t).all (fun d => done.contains d) && validSchedAux (t :: done) rest

/-- A dependency-respecting schedule (a linearisation of one run of the
gulp-3 orchestrator). -/
def validSched (ts : List GTask) : Bool := validSchedAux [] ts

/-- Well-formed file system: at most one binding per path. -/
def FS.Wf (fs : FS) : Prop := (fs.map Prod.fst).Nodup

/-- Agreement of two file systems on everything a task reads: the files
matched by its source glob (with their contents, in order), and the files the
task reads explicitly. -/
def readsAgree : GTask → FS → FS → Prop
  | .sassPreprocessor => fun a b => srcGlob scssSrcDir scssExt a = srcGlob scssSrcDir scssExt b
  | .css => fun a b => srcGlob scssDistDir scssExt a = srcGlob scssDistDir scssExt b
  | .ipythonCss => fun a b => a.read distIpythonCss = b.read distIpythonCss
  | .js => fun a b =>
      a.read requireJsPath = b.read requireJsPath ∧
        a.read mainJsSrcPath = b.read mainJsSrcPath
  | .html => fun a b =>
      srcGlob htmlSrcDir htmlExt a = srcGlob htmlSrcDir htmlExt b ∧
        a.read distMainCss = b.read distMainCss ∧
        a.read distMainJs = b.read distMainJs

/-- The CSS placeholder `<link href="bundle.css"...>` with attribute tail `a`
(which may not contain `>`). -/
def cssTag (a : FContent) : FContent := cssPat.lit1 ++ a ++ ['>']

/-- The JS placeholder `<script src="bundle.js"...></script>`. -/
def jsTag (b : FContent) : FContent := jsPat.lit1 ++ b ++ '>' :: jsPat.lit2

/-- Modelled from the spec's words, for comparison with the implementation
(claim C3): "the CSS bundle is the concatenation of all stylesheet sources",
compiled, prefixed and minified into one output. -/
def cssBundleSpec (T : Transforms) (fs : FS) : FContent :=
  T.cssnano (T.autoprefixer (T.sass
    (((srcGlob scssDistDir scssExt fs).map (fun e => e.2)).flatten)))

/-- The preprocessed stylesheet `dist/scss/main.scss`. -/
def distScssMain : FPath := "dist/scss/main.scss".toList

instance (fs : FS) : Decidable (FS.Wf fs) := by
  unfold FS.Wf
  infer_instance

instance (t : GTask) (a b : FS) : Decidable (readsAgree t a b) := by
  cases t <;> (unfold readsAgree; infer_instance)

theorem read_write_self (fs : FS) (p : FPath) (c : FContent) :
    (fs.write p c).read p = some c := by
  simp [FS.write, FS.read, List.lookup]

theorem lookup_filter_ne (fs : FS) (p q : FPath) (h : p ≠ q) :
    List.lookup p (fs.filter (fun e => decide ¬ (e.1 = q))) = List.lookup p fs := by
  induction fs with
  | nil => rfl
  | cons e rest ih =>
    obtain ⟨ep, ec⟩ := e
    by_cases he : ep = q
    · subst he
      have h2 : (p == ep) = false := by simp [beq_iff_eq, h]
      have h1 : (decide ¬ (ep = ep)) = false := by simp
      simp only [List.filter, h1, List.lookup, h2]
      exact ih
    · have h1 : (decide ¬ (ep = q)) = true := by simp [he]
      simp only [List.filter, h1, List.lookup]
      cases hpe : (p == ep) with
      | true => rfl
      | false => exact ih

theorem read_write_other (fs : FS) (p q : FPath) (c : FContent) (h : p ≠ q) :
    (fs.write q c).read p = fs.read p := by
  unfold FS.write FS.read
  rw [List.lookup]
  have hbeq : (p == q) = false := by simp [beq_iff_eq, h]
  rw [hbeq]
  exact lookup_filter_ne fs p q h

theorem applyWrites_append (fs : FS) (w1 w2 : List Write) :
    applyWrites fs (w1 ++ w2) = applyWrites (applyWrites fs w1) w2 := by
  simp [applyWrites, List.foldl_append]

theorem applyWrites_cons (fs : FS) (w : Write) (ws : List Write) :
    applyWrites fs (w :: ws) = applyWrites (fs.write w.1 w.2) ws := by
  simp [applyWrites]

theorem applyWrites_read_not_mem (fs : FS) (ws : List Write) (p : FPath)
    (h : p ∉ ws.map Prod.fst) :
    (applyWrites fs ws).read p = fs.read p := by
  induction ws generalizing fs with
  | nil => rfl
  | cons w rest ih =>
    rw [applyWrites_cons]
    have hp : p ≠ w.1 := by
      intro hc; exact h (by simp [hc])
    rw [ih _ (by intro hc; exact h (by simp [hc]))]
    exact read_write_other fs p w.1 w.2 hp

theorem applyWrites_read_isSome (fs : FS) (ws : List Write) (p : FPath)
    (h : (fs.read p).isSome = true) :
    ((applyWrites fs ws).read p).isSome = true := by
  induction ws generalizing fs with
  | nil => exact h
  | cons w rest ih =>
    rw [applyWrites_cons]
    apply ih
    by_cases hp : p = w.1
    · subst hp; rw [read_write_self]; rfl
    · rw [read_write_other fs p w.1 w.2 hp]; exact h

theorem applyWrites_read_mem_keys (fs : FS) (ws : List Write) (p : FPath)
    (h : p ∈ ws.map Prod.fst) :
    ((applyWrites fs ws).read p).isSome = true := by
  induction ws generalizing fs with
  | nil => simp at h
  | cons w rest ih =>
    rw [applyWrites_cons]
    by_cases hp : p ∈ rest.map Prod.fst
    · exact ih _ hp
    · have hpw : p = w.1 := by
        rcases (by simpa using h) with h1 | h1
        · exact h1
        · exact absurd (by simpa using h1) hp
      apply applyWrites_read_isSome
      subst hpw
      rw [read_write_self]
      rfl

theorem applyWrites_read_of_mem_nodup (fs : FS) (ws : List Write) (p : FPath)
    (c : FContent) (hmem : (p, c) ∈ ws) (hnd : (ws.map Prod.fst).Nodup) :
    (applyWrites fs ws).read p = some c := by
  induction ws generalizing fs with
  | nil => simp at hmem
  | cons w rest ih =>
    rw [applyWrites_cons]
    rw [List.map_cons] at hnd
    have hnd2 := List.nodup_cons.mp hnd
    rcases List.mem_cons.mp hmem with h1 | h1
    · have hp : p = w.1 := congrArg Prod.fst h1
      have hnotin : p ∉ rest.map Prod.fst := by
        rw [hp]; exact hnd2.1
      rw [applyWrites_read_not_mem _ _ _ hnotin]
      have hc : c = w.2 := congrArg Prod.snd h1
      rw [hp, hc]
      exact read_write_self fs w.1 w.2
    · exact ih _ h1 hnd2.2

theorem lookup_mem (fs : FS) (p : FPath) (c : FContent)
    (h : fs.read p = some c) : (p, c) ∈ fs := by
  induction fs with
  | nil => simp [FS.read, List.lookup] at h
  | cons e rest ih =>
    obtain ⟨ep, ec⟩ := e
    unfold FS.read at h
    rw [List.lookup] at h
    cases hpe : (p == ep) with
    | true =>
      rw [hpe] at h
      have hp : p = ep := by simpa using hpe
      have hc : ec = c := by simpa using h
      rw [hp, ← hc]
      exact List.mem_cons_self _ _
    | false =>
      rw [hpe] at h
      exact List.mem_cons_of_mem _ (ih h)

theorem takeWhile_append_all (P : Char → Bool) (xs ys : List Char)
    (h : ∀ c ∈ xs, P c = true) :
    List.takeWhile P (xs ++ ys) = xs ++ List.takeWhile P ys := by
  induction xs with
  | nil => rfl
  | cons x rest ih =>
    have hx : P x = true := h x (by simp)
    simp only [List.cons_append, List.takeWhile, hx]
    have hih := ih (fun c hc => h c (by simp [hc]))
    show x :: List.takeWhile P (rest ++ ys) = x :: (rest ++ List.takeWhile P ys)
    rw [hih]

theorem baseName_append (d b : FPath) (hb : ∀ c ∈ b, (c != '/') = true) :
    baseName ((d ++ ['/']) ++ b) = b := by
  unfold baseName
  rw [List.reverse_append, List.reverse_append]
  have hrb : ∀ c ∈ b.reverse, (fun c => c != '/') c = true := by
    intro c hc; exact hb c (List.mem_reverse.mp hc)
  rw [takeWhile_append_all _ _ _ hrb]
  have : List.takeWhile (fun c => c != '/') (['/'].reverse ++ d.reverse) = [] := by
    simp [List.takeWhile]
  rw [this, List.append_nil, List.reverse_reverse]

theorem globMatch_decomp (dir ext p : FPath) (h : globMatch dir ext p = true) :
    p = dir ++ p.drop dir.length ∧
      (∀ c ∈ p.drop dir.length, (c != '/') = true) := by
  unfold globMatch at h
  simp only [Bool.and_eq_true] at h
  obtain ⟨⟨h1, h2⟩, h3⟩ := h
  constructor
  · obtain ⟨t, ht⟩ := List.isPrefixOf_iff_prefix.mp h1
    conv_lhs => rw [← ht]
    rw [← ht, List.drop_left]
  · intro c hc
    exact List.all_eq_true.mp h2 c hc

theorem baseName_of_glob (d ext p : FPath)
    (h : globMatch (d ++ ['/']) ext p = true) :
    baseName p = p.drop (d ++ ['/']).length := by
  obtain ⟨hdec, hall⟩ := globMatch_decomp _ _ _ h
  conv_lhs => rw [hdec]
  exact baseName_append d _ hall

theorem baseName_inj_on_glob (d ext p q : FPath)
    (hp : globMatch (d ++ ['/']) ext p = true)
    (hq : globMatch (d ++ ['/']) ext q = true)
    (hne : p ≠ q) : baseName p ≠ baseName q := by
  intro hc
  apply hne
  rw [baseName_of_glob _ _ _ hp, baseName_of_glob _ _ _ hq] at hc
  rw [(globMatch_decomp _ _ _ hp).1, (globMatch_decomp _ _ _ hq).1, hc]

theorem chExt_append (t : FPath) :
    chExt (t ++ ".scss".toList) = t ++ ".css".toList := by
  unfold chExt
  have hsuf : (".scss".toList).isSuffixOf (t ++ ".scss".toList) = true := by
    rw [List.isSuffixOf_iff_suffix]
    exact List.suffix_append t _
  rw [if_pos hsuf]
  have hlen : (t ++ ".scss".toList).length - 5 = t.length := by
    simp
  rw [hlen, List.take_left]

theorem suffix_scss_decomp (b : FPath)
    (h : (".scss".toList).isSuffixOf b = true) :
    b = b.take (b.length - 5) ++ ".scss".toList := by
  obtain ⟨t, ht⟩ := List.isSuffixOf_iff_suffix.mp h
  conv_lhs => rw [← ht]
  rw [← ht]
  have hlen : (t ++ ".scss".toList).length - 5 = t.length := by simp
  rw [hlen, List.take_left]

theorem chExt_inj_on_scss (b1 b2 : FPath)
    (h1 : (".scss".toList).isSuffixOf b1 = true)
    (h2 : (".scss".toList).isSuffixOf b2 = true)
    (hne : b1 ≠ b2) : chExt b1 ≠ chExt b2 := by
  intro hc
  apply hne
  unfold chExt at hc
  rw [if_pos h1, if_pos h2] at hc
  have := List.append_cancel_right hc
  rw [suffix_scss_decomp b1 h1, suffix_scss_decomp b2 h2, this]

theorem dropWhile_append_all (P : Char → Bool) (xs ys : List Char)
    (h : ∀ c ∈ xs, P c = true) :
    List.dropWhile P (xs ++ ys) = List.dropWhile P ys := by
  induction xs with
  | nil => rfl
  | cons x rest ih =>
    have hx : P x = true := h x (by simp)
    simp only [List.cons_append, List.dropWhile, hx]
    exact ih (fun c hc => h c (by simp [hc]))

theorem dropWhile_all_nil (P : Char → Bool) (xs : List Char)
    (h : ∀ c ∈ xs, P c = true) : List.dropWhile P xs = [] := by
  induction xs with
  | nil => rfl
  | cons x rest ih =>
    have hx : P x = true := h x (by simp)
    simp only [List.dropWhile, hx]
    exact ih (fun c hc => h c (by simp [hc]))

theorem rewriteLine_not_matching (l : FContent) (h : lineMatches l = false) :
    rewriteLine l = l := by
  unfold lineMatches at h
  simp only [Bool.or_eq_false_iff, Bool.and_eq_false_iff] at h
  unfold rewriteLine
  by_cases h1 : (importTildeStart '"').isPrefixOf l
  · rcases h.1 with hc | hc
    · rw [h1] at hc; cases hc
    · rw [if_pos h1]
      unfold rewriteQuote
      have hall : ∀ c ∈ l.drop 10, (fun c => c != '"') c = true := by
        intro c hcmem
        have : ¬ (c ∈ l.drop 10 ∧ c = '"') := by
          intro ⟨_, hcq⟩
          rw [hcq] at hcmem
          have : (l.drop 10).contains '"' = true := by
            simpa [List.contains] using hcmem
          rw [this] at hc; cases hc
        simp only [bne_iff_ne, ne_eq]
        intro hcq
        exact this ⟨hcmem, hcq⟩
      rw [dropWhile_all_nil _ _ hall]
  · rw [if_neg h1]
    by_cases h2 : (importTildeStart squote).isPrefixOf l
    · rcases h.2 with hc | hc
      · rw [h2] at hc; cases hc
      · rw [if_pos h2]
        unfold rewriteQuote
        have hall : ∀ c ∈ l.drop 10, (fun c => c != squote) c = true := by
          intro c hcmem
          simp only [bne_iff_ne, ne_eq]
          intro hcq
          rw [hcq] at hcmem
          have : (l.drop 10).contains squote = true := by
            simpa [List.contains] using hcmem
          rw [this] at hc; cases hc
        rw [dropWhile_all_nil _ _ hall]
    · rw [if_neg h2]

theorem importTildeStart_len (q : Char) : (importTildeStart q).length = 10 := rfl

theorem rewriteLine_dq (p r : FContent)
    (hp : ∀ c ∈ p, (c != '"') = true) :
    rewriteLine (importTildeStart '"' ++ (p ++ '"' :: r)) =
      "@import \"".toList ++ p ++ '"' :: r := by
  unfold rewriteLine
  have hpre : (importTildeStart '"').isPrefixOf
      (importTildeStart '"' ++ (p ++ '"' :: r)) = true := by
    rw [List.isPrefixOf_iff_prefix]
    exact List.prefix_append _ _
  rw [if_pos hpre]
  have hdrop : (importTildeStart '"' ++ (p ++ '"' :: r)).drop 10 = p ++ '"' :: r := by
    conv_lhs => rw [← importTildeStart_len '"']
    exact List.drop_left _ _
  rw [hdrop]
  unfold rewriteQuote
  rw [dropWhile_append_all _ _ _ hp, takeWhile_append_all _ _ _ hp]
  have hq : ((fun c => c != '"') '"') = false := by decide
  simp only [List.dropWhile, List.takeWhile, hq, List.append_nil]

theorem squote_prefix_not_dq (l : FContent) :
    (importTildeStart '"').isPrefixOf (importTildeStart squote ++ l) = false := by
  by_contra hc
  have hpre : importTildeStart '"' <+: importTildeStart squote ++ l := by
    rw [← List.isPrefixOf_iff_prefix]
    revert hc
    cases (importTildeStart '"').isPrefixOf (importTildeStart squote ++ l) with
    | true => intro _; rfl
    | false => intro hc2; exact absurd rfl hc2
  have htake := List.prefix_iff_eq_take.mp hpre
  rw [importTildeStart_len] at htake
  have htk : (importTildeStart squote ++ l).take 10 = importTildeStart squote := by
    conv_lhs => rw [← importTildeStart_len squote]
    exact List.take_left _ _
  rw [htk] at htake
  have : importTildeStart '"' ≠ importTildeStart squote := by decide
  exact this htake

theorem rewriteLine_sq (p r : FContent)
    (hp : ∀ c ∈ p, (c != squote) = true) :
    rewriteLine (importTildeStart squote ++ (p ++ squote :: r)) =
      "@import \"".toList ++ p ++ '"' :: r := by
  unfold rewriteLine
  rw [squote_prefix_not_dq]
  simp only [Bool.false_eq_true, if_false]
  have hpre : (importTildeStart squote).isPrefixOf
      (importTildeStart squote ++ (p ++ squote :: r)) = true := by
    rw [List.isPrefixOf_iff_prefix]
    exact List.prefix_append _ _
  rw [if_pos hpre]
  have hdrop : (importTildeStart squote ++ (p ++ squote :: r)).drop 10 =
      p ++ squote :: r := by
    conv_lhs => rw [← importTildeStart_len squote]
    exact List.drop_left _ _
  rw [hdrop]
  unfold rewriteQuote
  rw [dropWhile_append_all _ _ _ hp, takeWhile_append_all _ _ _ hp]
  have hq : ((fun c => c != squote) squote) = false := by decide
  simp only [List.dropWhile, List.takeWhile, hq, List.append_nil]

theorem replaceFirst_skip (pat : TagPat) (f : FContent → FContent)
    (u v : FContent)
    (h : ∀ u2 ∈ u.tails, u2 ≠ [] → matchAt pat (u2 ++ v) = none) :
    replaceFirst pat f (u ++ v) = u ++ replaceFirst pat f v := by
  induction u with
  | nil => rfl
  | cons c u2 ih =>
    have hm : matchAt pat ((c :: u2) ++ v) = none := by
      refine h (c :: u2) ?_ (by simp)
      rw [List.mem_tails]
    have ih2 : replaceFirst pat f (u2 ++ v) = u2 ++ replaceFirst pat f v := by
      apply ih
      intro u3 hu3 hne
      apply h u3 _ hne
      rw [List.mem_tails] at hu3 ⊢
      exact hu3.trans (List.suffix_cons c u2)
    rw [List.cons_append]
    rw [replaceFirst]
    rw [← List.cons_append, hm]
    show c :: replaceFirst pat f (u2 ++ v) = c :: u2 ++ replaceFirst pat f v
    rw [ih2]
    rfl

theorem matchAt_tag (pat : TagPat) (a w : FContent)
    (ha : ∀ c ∈ a, (c != '>') = true) :
    matchAt pat (pat.lit1 ++ (a ++ '>' :: (pat.lit2 ++ w))) =
      some (pat.lit1 ++ a ++ '>' :: pat.lit2, w) := by
  unfold matchAt
  have hpre : pat.lit1.isPrefixOf (pat.lit1 ++ (a ++ '>' :: (pat.lit2 ++ w))) = true := by
    rw [List.isPrefixOf_iff_prefix]
    exact List.prefix_append _ _
  rw [if_pos hpre]
  have hdrop : (pat.lit1 ++ (a ++ '>' :: (pat.lit2 ++ w))).drop pat.lit1.length =
      a ++ '>' :: (pat.lit2 ++ w) := List.drop_left _ _
  simp only [hdrop]
  rw [dropWhile_append_all _ _ _ ha, takeWhile_append_all _ _ _ ha]
  have hgt : ((fun c => c != '>') '>') = false := by decide
  simp only [List.dropWhile, List.takeWhile, hgt, List.append_nil]
  have hpre2 : pat.lit2.isPrefixOf (pat.lit2 ++ w) = true := by
    rw [List.isPrefixOf_iff_prefix]
    exact List.prefix_append _ _
  rw [if_pos hpre2]
  rw [List.drop_left]

theorem replaceFirst_tag (pat : TagPat) (f : FContent → FContent)
    (a w : FContent) (c1 : Char) (t1 : FContent) (hl : pat.lit1 = c1 :: t1)
    (ha : ∀ c ∈ a, (c != '>') = true) :
    replaceFirst pat f (pat.lit1 ++ (a ++ '>' :: (pat.lit2 ++ w))) =
      f (pat.lit1 ++ a ++ '>' :: pat.lit2) ++ w := by
  have hm := matchAt_tag pat a w ha
  rw [hl] at hm ⊢
  rw [List.cons_append, replaceFirst, ← List.cons_append, hm]

theorem replaceFirst_mid (pat : TagPat) (f : FContent → FContent)
    (u a w : FContent) (c1 : Char) (t1 : FContent) (hl : pat.lit1 = c1 :: t1)
    (hu : ∀ u2 ∈ u.tails, u2 ≠ [] →
      matchAt pat (u2 ++ (pat.lit1 ++ (a ++ '>' :: (pat.lit2 ++ w)))) = none)
    (ha : ∀ c ∈ a, (c != '>') = true) :
    replaceFirst pat f (u ++ (pat.lit1 ++ (a ++ '>' :: (pat.lit2 ++ w)))) =
      u ++ (f (pat.lit1 ++ a ++ '>' :: pat.lit2) ++ w) := by
  rw [replaceFirst_skip pat f u _ hu, replaceFirst_tag pat f a w c1 t1 hl ha]

/-! ## Task-level lemmas -/

theorem mem_srcGlob_of_read (dir ext : FPath) (fs : FS) (p : FPath)
    (c : FContent) (hr : fs.read p = some c)
    (hg : globMatch dir ext p = true) : (p, c) ∈ srcGlob dir ext fs := by
  unfold srcGlob
  exact List.mem_filter.mpr ⟨lookup_mem fs p c hr, by simpa using hg⟩

theorem srcGlob_mem_match (dir ext : FPath) (fs : FS) (e : FPath × FContent)
    (h : e ∈ srcGlob dir ext fs) : globMatch dir ext e.1 = true := by
  unfold srcGlob at h
  simpa using (List.mem_filter.mp h).2

theorem srcGlob_keys_match (dir ext : FPath) (fs : FS) (q : FPath)
    (h : q ∈ (srcGlob dir ext fs).map Prod.fst) :
    globMatch dir ext q = true := by
  obtain ⟨e, he, hq⟩ := List.mem_map.mp h
  rw [← hq]
  exact srcGlob_mem_match dir ext fs e he

theorem srcGlob_keys_nodup (dir ext : FPath) (fs : FS) (hwf : fs.Wf) :
    ((srcGlob dir ext fs).map Prod.fst).Nodup := by
  unfold srcGlob
  exact hwf.sublist ((List.filter_sublist fs).map _)

theorem mapWrites_keys (name : FPath → FPath) (tr : FContent → FContent)
    (g : FS) : (mapWrites name tr g).map Prod.fst = (g.map Prod.fst).map name := by
  unfold mapWrites
  rw [List.map_map, List.map_map]
  rfl

theorem mapWrites_read (name : FPath → FPath) (tr : FContent → FContent)
    (g : FS) (fs : FS) (p : FPath) (c : FContent)
    (hnd : (g.map Prod.fst).Nodup)
    (hinj : ∀ q1 ∈ g.map Prod.fst, ∀ q2 ∈ g.map Prod.fst,
      name q1 = name q2 → q1 = q2)
    (hmem : (p, c) ∈ g) :
    (applyWrites fs (mapWrites name tr g)).read (name p) = some (tr c) := by
  apply applyWrites_read_of_mem_nodup
  · exact List.mem_map.mpr ⟨(p, c), hmem, rfl⟩
  · rw [mapWrites_keys]
    exact hnd.map_on hinj

/-- Transfer of a suffix across a directory prefix: if `ext` (which contains
no `/`) is a suffix of `(d ++ "/") ++ b` and `b` contains no `/`, then `ext`
is a suffix of `b`. -/
theorem suffix_transfer (ext d b : FPath)
    (hs : ext <:+ ((d ++ ['/']) ++ b))
    (hnos : '/' ∉ ext) : ext <:+ b := by
  set q := (d ++ ['/']) ++ b with hq
  have hqlen : q.length = d.length + 1 + b.length := by
    rw [hq]
    simp only [List.length_append, List.length_cons, List.length_nil]
  have hle : ext.length ≤ q.length := List.IsSuffix.length_le hs
  have hdropq := List.suffix_iff_eq_drop.mp hs
  by_cases hblen : ext.length ≤ b.length
  · have harith : ((d ++ ['/']) ++ b).length - ext.length =
        (d ++ ['/']).length + (b.length - ext.length) := by
      simp only [List.length_append, List.length_cons, List.length_nil]
      omega
    rw [hq, harith, List.drop_append] at hdropq
    exact List.suffix_iff_eq_drop.mpr hdropq
  · exfalso
    apply hnos
    have hk : q.length - ext.length ≤ d.length := by omega
    have hmem : '/' ∈ q.drop (q.length - ext.length) := by
      have h1 : '/' ∈ q.drop d.length := by
        have : q.drop d.length = ('/' :: b) := by
          rw [hq]
          have : d ++ ['/'] ++ b = d ++ ('/' :: b) := by simp
          rw [this]
          conv_lhs => rw [show d.length = d.length + 0 from rfl]
          rw [List.drop_append]
          rfl
        rw [this]
        exact List.mem_cons_self _ _
      have h2 : q.drop d.length <:+ q.drop (q.length - ext.length) := by
        have : (q.drop (q.length - ext.length)).drop (d.length - (q.length - ext.length)) =
            q.drop d.length := by
          rw [List.drop_drop]
          congr 1
          omega
        rw [← this]
        exact List.drop_suffix _ _
      exact h2.mem h1
    rw [← hdropq] at hmem
    exact hmem

theorem glob_key_scss_suffix (d ext : FPath) (q : FPath)
    (hnos : '/' ∉ ext)
    (h : globMatch (d ++ ['/']) ext q = true) :
    ext <:+ q.drop (d ++ ['/']).length := by
  obtain ⟨hdec, hall⟩ := globMatch_decomp _ _ _ h
  unfold globMatch at h
  simp only [Bool.and_eq_true] at h
  have hsuf : ext <:+ q := List.isSuffixOf_iff_suffix.mp h.2
  rw [hdec] at hsuf
  exact suffix_transfer ext d _ hsuf hnos

theorem glob_baseName_inj (d ext q1 q2 : FPath)
    (h1 : globMatch (d ++ ['/']) ext q1 = true)
    (h2 : globMatch (d ++ ['/']) ext q2 = true)
    (heq : baseName q1 = baseName q2) : q1 = q2 := by
  by_contra hne
  exact baseName_inj_on_glob d ext q1 q2 h1 h2 hne heq

theorem dist_ne_templ (u v : FPath) : distDir ++ u ≠ templatesDir ++ v := by
  intro h
  have h1 : (distDir ++ u).head? = some 'd' := rfl
  have h2 : (templatesDir ++ v).head? = some '.' := rfl
  rw [h] at h1
  have h3 := h1.symm.trans h2
  simp at h3

theorem htmlOut_congr (T : Transforms) (fs1 fs2 : FS) (c : FContent)
    (h1 : fs1.read distMainCss = fs2.read distMainCss)
    (h2 : fs1.read distMainJs = fs2.read distMainJs) :
    htmlOut T fs1 c = htmlOut T fs2 c := by
  unfold htmlOut
  rw [h1, h2]

theorem htmlWrites_keys_iff (T : Transforms) (fs0 : FS) (g : FS) (q : FPath) :
    q ∈ (htmlWrites T fs0 g).map Prod.fst ↔
      ∃ e, e ∈ g ∧
        (q = distDir ++ baseName e.1 ∨ q = templatesDir ++ baseName e.1) := by
  unfold htmlWrites
  constructor
  · intro h
    obtain ⟨w, hw, hq⟩ := List.mem_map.mp h
    obtain ⟨sub, hsub, hwsub⟩ := List.mem_flatten.mp hw
    obtain ⟨e, he, hfe⟩ := List.mem_map.mp hsub
    refine ⟨e, he, ?_⟩
    rw [← hfe] at hwsub
    rcases List.mem_cons.mp hwsub with h1 | h1
    · left; rw [← hq, h1]
    · rcases List.mem_cons.mp h1 with h2 | h2
      · right; rw [← hq, h2]
      · simp at h2
  · intro ⟨e, he, hor⟩
    apply List.mem_map.mpr
    rcases hor with h1 | h1
    · refine ⟨(distDir ++ baseName e.1, htmlOut T fs0 e.2), ?_, h1.symm⟩
      apply List.mem_flatten.mpr
      refine ⟨_, List.mem_map.mpr ⟨e, he, rfl⟩, by simp⟩
    · refine ⟨(templatesDir ++ baseName e.1, htmlOut T fs0 e.2), ?_, h1.symm⟩
      apply List.mem_flatten.mpr
      refine ⟨_, List.mem_map.mpr ⟨e, he, rfl⟩, by simp⟩

theorem htmlWrites_keys_nodup (T : Transforms) (fs0 : FS) (g : FS)
    (hall : ∀ e ∈ g, globMatch htmlSrcDir htmlExt e.1 = true)
    (hnd : (g.map Prod.fst).Nodup) :
    ((htmlWrites T fs0 g).map Prod.fst).Nodup := by
  have hdir : htmlSrcDir = "src/html".toList ++ ['/'] := by decide
  induction g with
  | nil => simp [htmlWrites]
  | cons e rest ih =>
    rw [List.map_cons] at hnd
    have hnd2 := List.nodup_cons.mp hnd
    have hrest := ih (fun e2 he2 => hall e2 (List.mem_cons_of_mem _ he2)) hnd2.2
    have hkeys : (htmlWrites T fs0 (e :: rest)).map Prod.fst =
        (distDir ++ baseName e.1) :: (templatesDir ++ baseName e.1) ::
          (htmlWrites T fs0 rest).map Prod.fst := by
      simp [htmlWrites]
    rw [hkeys]
    have hne_other : ∀ q ∈ (htmlWrites T fs0 rest).map Prod.fst,
        q ≠ distDir ++ baseName e.1 ∧ q ≠ templatesDir ++ baseName e.1 := by
      intro q hq
      obtain ⟨e2, he2, hor⟩ := (htmlWrites_keys_iff T fs0 rest q).mp hq
      have hbne : baseName e2.1 ≠ baseName e.1 := by
        have hg1 : globMatch (("src/html".toList) ++ ['/']) htmlExt e2.1 = true := by
          rw [← hdir]; exact hall e2 (List.mem_cons_of_mem _ he2)
        have hg2 : globMatch (("src/html".toList) ++ ['/']) htmlExt e.1 = true := by
          rw [← hdir]; exact hall e (List.mem_cons_self _ _)
        apply baseName_inj_on_glob _ _ _ _ hg1 hg2
        intro hc
        apply hnd2.1
        rw [← hc]
        exact List.mem_map.mpr ⟨e2, he2, rfl⟩
      rcases hor with h1 | h1
      · constructor
        · rw [h1]; intro hc
          exact hbne (List.append_cancel_left hc)
        · rw [h1]; exact dist_ne_templ _ _
      · constructor
        · rw [h1]; intro hc
          exact dist_ne_templ _ _ hc.symm
        · rw [h1]; intro hc
          exact hbne (List.append_cancel_left hc)
    apply List.nodup_cons.mpr
    constructor
    · intro hc
      rcases List.mem_cons.mp hc with h1 | h1
      · exact dist_ne_templ _ _ h1
      · exact (hne_other _ h1).1 rfl
    · apply List.nodup_cons.mpr
      exact ⟨fun hc => (hne_other _ hc).2 rfl, hrest⟩

theorem html_run (T : Transforms) (fs : FS) (p : FPath) (c : FContent)
    (hwf : fs.Wf) (hmem : (p, c) ∈ srcGlob htmlSrcDir htmlExt fs) :
    (runTask T .html fs).read (distDir ++ baseName p) = some (htmlOut T fs c) ∧
      (runTask T .html fs).read (templatesDir ++ baseName p) = some (htmlOut T fs c) := by
  have hall := fun e he => srcGlob_mem_match htmlSrcDir htmlExt fs e he
  have hnd := srcGlob_keys_nodup htmlSrcDir htmlExt fs hwf
  have hknd := htmlWrites_keys_nodup T fs _ hall hnd
  constructor
  · apply applyWrites_read_of_mem_nodup _ _ _ _ _ hknd
    unfold htmlWrites
    apply List.mem_flatten.mpr
    exact ⟨_, List.mem_map.mpr ⟨(p, c), hmem, rfl⟩, by simp⟩
  · apply applyWrites_read_of_mem_nodup _ _ _ _ _ hknd
    unfold htmlWrites
    apply List.mem_flatten.mpr
    exact ⟨_, List.mem_map.mpr ⟨(p, c), hmem, rfl⟩, by simp⟩

theorem sassPre_run (T : Transforms) (fs : FS) (p : FPath) (c : FContent)
    (hwf : fs.Wf) (hmem : (p, c) ∈ srcGlob scssSrcDir scssExt fs) :
    (runTask T .sassPreprocessor fs).read (scssDistDir ++ baseName p) =
      some (tildeStrip c) := by
  have hdir : scssSrcDir = "src/scss".toList ++ ['/'] := by decide
  unfold runTask taskWrites
  apply mapWrites_read _ _ _ _ _ _ (srcGlob_keys_nodup _ _ _ hwf) _ hmem
  intro q1 hq1 q2 hq2 heq
  have hg1 := srcGlob_keys_match _ _ _ _ hq1
  have hg2 := srcGlob_keys_match _ _ _ _ hq2
  rw [hdir] at hg1 hg2
  exact glob_baseName_inj _ _ _ _ hg1 hg2 (List.append_cancel_left heq)

theorem css_run (T : Transforms) (fs : FS) (p : FPath) (c : FContent)
    (hwf : fs.Wf) (hmem : (p, c) ∈ srcGlob scssDistDir scssExt fs) :
    (runTask T .css fs).read (distDir ++ chExt (baseName p)) =
      some (cssCompile T c) := by
  have hdir : scssDistDir = "dist/scss".toList ++ ['/'] := by decide
  have hnos : '/' ∉ scssExt := by decide
  unfold runTask taskWrites
  apply mapWrites_read _ _ _ _ _ _ (srcGlob_keys_nodup _ _ _ hwf) _ hmem
  intro q1 hq1 q2 hq2 heq
  have hg1 := srcGlob_keys_match _ _ _ _ hq1
  have hg2 := srcGlob_keys_match _ _ _ _ hq2
  rw [hdir] at hg1 hg2
  have hchx := List.append_cancel_left heq
  have hb1 : baseName q1 = q1.drop ("dist/scss".toList ++ ['/']).length :=
    baseName_of_glob _ _ _ hg1
  have hb2 : baseName q2 = q2.drop ("dist/scss".toList ++ ['/']).length :=
    baseName_of_glob _ _ _ hg2
  have hs1 : (scssExt).isSuffixOf (baseName q1) = true := by
    rw [hb1, List.isSuffixOf_iff_suffix]
    exact glob_key_scss_suffix _ _ _ hnos hg1
  have hs2 : (scssExt).isSuffixOf (baseName q2) = true := by
    rw [hb2, List.isSuffixOf_iff_suffix]
    exact glob_key_scss_suffix _ _ _ hnos hg2
  have hbeq : baseName q1 = baseName q2 := by
    by_contra hne
    exact chExt_inj_on_scss _ _ hs1 hs2 hne hchx
  exact glob_baseName_inj _ _ _ _ hg1 hg2 hbeq

theorem intercalate_pair (r m : FContent) :
    List.intercalate ['\n'] [r, m] = r ++ '\n' :: m := by
  simp [List.intercalate, List.intersperse]

theorem js_run (T : Transforms) (fs : FS) (r m : FContent)
    (h1 : fs.read requireJsPath = some r) (h2 : fs.read mainJsSrcPath = some m) :
    (runTask T .js fs).read distMainJs =
      some (T.uglify (T.babel (r ++ '\n' :: m))) := by
  unfold runTask taskWrites
  simp only [List.filterMap_cons, List.filterMap_nil, h1, h2]
  rw [intercalate_pair, applyWrites_cons]
  exact read_write_self _ _ _

theorem ipy_run (T : Transforms) (fs : FS) (c : FContent)
    (h : fs.read distIpythonCss = some c) :
    (runTask T .ipythonCss fs).read templatesIpythonCss = some c := by
  unfold runTask taskWrites
  rw [h, applyWrites_cons]
  exact read_write_self _ _ _

/-! ## Scheduler lemmas -/

theorem runSched_append (T : Transforms) (ts1 ts2 : List GTask) (fs : FS) :
    runSched T (ts1 ++ ts2) fs = runSched T ts2 (runSched T ts1 fs) := by
  simp [runSched, List.foldl_append]

theorem runSched_cons (T : Transforms) (t : GTask) (ts : List GTask) (fs : FS) :
    runSched T (t :: ts) fs = runSched T ts (runTask T t fs) := rfl

theorem runTask_read_isSome (T : Transforms) (t : GTask) (fs : FS) (p : FPath)
    (h : (fs.read p).isSome = true) :
    ((runTask T t fs).read p).isSome = true :=
  applyWrites_read_isSome fs _ p h

theorem runSched_read_isSome (T : Transforms) (ts : List GTask) (fs : FS)
    (p : FPath) (h : (fs.read p).isSome = true) :
    ((runSched T ts fs).read p).isSome = true := by
  induction ts generalizing fs with
  | nil => exact h
  | cons t rest ih =>
    rw [runSched_cons]
    exact ih _ (runTask_read_isSome T t fs p h)

theorem validSchedAux_mem (l1 : List GTask) (done l2 : List GTask) (t : GTask)
    (h : validSchedAux done (l1 ++ t :: l2) = true) :
    ∀ d ∈ deps t, d ∈ done ∨ d ∈ l1 := by
  induction l1 generalizing done with
  | nil =>
    rw [List.nil_append] at h
    unfold validSchedAux at h
    simp only [Bool.and_eq_true] at h
    intro d hd
    left
    have := List.all_eq_true.mp h.1 d hd
    simpa using this
  | cons x l1t ih =>
    rw [List.cons_append] at h
    unfold validSchedAux at h
    simp only [Bool.and_eq_true] at h
    have h2 := h.2
    intro d hd
    rcases ih (x :: done) h2 d hd with hmem | hmem
    · rcases List.mem_cons.mp hmem with h3 | h3
      · right; rw [h3]; exact List.mem_cons_self _ _
      · left; exact h3
    · right; exact List.mem_cons_of_mem _ hmem

theorem validSched_mem (l1 l2 : List GTask) (t : GTask)
    (h : validSched (l1 ++ t :: l2) = true) :
    ∀ d ∈ deps t, d ∈ l1 := by
  intro d hd
  rcases validSchedAux_mem l1 [] l2 t h d hd with hmem | hmem
  · simp at hmem
  · exact hmem

theorem sassPre_mk (T : Transforms) (fs : FS)
    (h : (fs.read srcScssMain).isSome = true) :
    ((runTask T .sassPreprocessor fs).read distScssMain).isSome = true := by
  obtain ⟨c, hc⟩ := Option.isSome_iff_exists.mp h
  have hmem : (srcScssMain, c) ∈ srcGlob scssSrcDir scssExt fs :=
    mem_srcGlob_of_read _ _ _ _ _ hc (by decide)
  unfold runTask
  apply applyWrites_read_mem_keys
  show distScssMain ∈ (taskWrites T .sassPreprocessor fs).map Prod.fst
  unfold taskWrites
  rw [mapWrites_keys]
  apply List.mem_map.mpr
  refine ⟨srcScssMain, List.mem_map.mpr ⟨(srcScssMain, c), hmem, rfl⟩, ?_⟩
  decide

theorem css_mk (T : Transforms) (fs : FS)
    (h : (fs.read distScssMain).isSome = true) :
    ((runTask T .css fs).read distMainCss).isSome = true := by
  obtain ⟨c, hc⟩ := Option.isSome_iff_exists.mp h
  have hmem : (distScssMain, c) ∈ srcGlob scssDistDir scssExt fs :=
    mem_srcGlob_of_read _ _ _ _ _ hc (by decide)
  unfold runTask
  apply applyWrites_read_mem_keys
  show distMainCss ∈ (taskWrites T .css fs).map Prod.fst
  unfold taskWrites
  rw [mapWrites_keys]
  apply List.mem_map.mpr
  refine ⟨distScssMain, List.mem_map.mpr ⟨(distScssMain, c), hmem, rfl⟩, ?_⟩
  decide

theorem js_mk (T : Transforms) (fs : FS)
    (h1 : (fs.read requireJsPath).isSome = true)
    (h2 : (fs.read mainJsSrcPath).isSome = true) :
    ((runTask T .js fs).read distMainJs).isSome = true := by
  obtain ⟨r, hr⟩ := Option.isSome_iff_exists.mp h1
  obtain ⟨m, hm⟩ := Option.isSome_iff_exists.mp h2
  rw [js_run T fs r m hr hm]
  rfl

theorem sched_css_ready (T : Transforms) (fs : FS)
    (hsrc : (fs.read srcScssMain).isSome = true)
    (a b c : List GTask) :
    ((runSched T (a ++ GTask.sassPreprocessor :: (b ++ GTask.css :: c)) fs).read
      distMainCss).isSome = true := by
  rw [runSched_append, runSched_cons, runSched_append, runSched_cons]
  apply runSched_read_isSome
  apply css_mk
  apply runSched_read_isSome
  apply sassPre_mk
  exact runSched_read_isSome T a fs _ hsrc

theorem sched_js_ready (T : Transforms) (fs : FS)
    (h1 : (fs.read requireJsPath).isSome = true)
    (h2 : (fs.read mainJsSrcPath).isSome = true)
    (a b : List GTask) :
    ((runSched T (a ++ GTask.js :: b) fs).read distMainJs).isSome = true := by
  rw [runSched_append, runSched_cons]
  apply runSched_read_isSome
  apply js_mk
  · exact runSched_read_isSome T a fs _ h1
  · exact runSched_read_isSome T a fs _ h2

/-! ## Frame lemmas: where each task writes -/

theorem two_prefixes_head (c1 c2 : Char) (x y p : FPath)
    (h1 : (c1 :: x).isPrefixOf p = true) (h2 : (c2 :: y).isPrefixOf p = true) :
    c1 = c2 := by
  rw [List.isPrefixOf_iff_prefix] at h1 h2
  obtain ⟨t1, ht1⟩ := h1
  obtain ⟨t2, ht2⟩ := h2
  rw [← ht1] at ht2
  have h3 : c2 = c1 := by simpa using congrArg List.head? ht2
  exact h3.symm

theorem writes_dist_sassPre (T : Transforms) (fs : FS) :
    ∀ w ∈ taskWrites T .sassPreprocessor fs, distDir.isPrefixOf w.1 = true := by
  intro w hw
  unfold taskWrites mapWrites at hw
  obtain ⟨e, he, hwe⟩ := List.mem_map.mp hw
  rw [← hwe]
  show distDir.isPrefixOf (scssDistDir ++ baseName e.1) = true
  rw [List.isPrefixOf_iff_prefix]
  have hd : scssDistDir = distDir ++ "scss/".toList := by decide
  rw [hd, List.append_assoc]
  exact List.prefix_append _ _

theorem writes_dist_css (T : Transforms) (fs : FS) :
    ∀ w ∈ taskWrites T .css fs, distDir.isPrefixOf w.1 = true := by
  intro w hw
  unfold taskWrites mapWrites at hw
  obtain ⟨e, he, hwe⟩ := List.mem_map.mp hw
  rw [← hwe]
  show distDir.isPrefixOf (distDir ++ chExt (baseName e.1)) = true
  rw [List.isPrefixOf_iff_prefix]
  exact List.prefix_append _ _

theorem writes_dist_js (T : Transforms) (fs : FS) :
    ∀ w ∈ taskWrites T .js fs, distDir.isPrefixOf w.1 = true := by
  intro w hw
  unfold taskWrites at hw
  cases hm : [requireJsPath, mainJsSrcPath].filterMap (fun p => fs.read p) with
  | nil => rw [hm] at hw; simp at hw
  | cons f rest =>
    rw [hm] at hw
    have hw1 : w = (distMainJs,
        T.uglify (T.babel (List.intercalate ['\n'] (f :: rest)))) := by
      simpa using hw
    rw [hw1]
    show distDir.isPrefixOf distMainJs = true
    decide

theorem runTask_templates_frame (T : Transforms) (t : GTask) (fs : FS)
    (p : FPath)
    (hall : ∀ w ∈ taskWrites T t fs, distDir.isPrefixOf w.1 = true)
    (hp : ("../templates".toList).isPrefixOf p = true) :
    (runTask T t fs).read p = fs.read p := by
  unfold runTask
  apply applyWrites_read_not_mem
  intro hc
  obtain ⟨w, hw, hwp⟩ := List.mem_map.mp hc
  have hd := hall w hw
  rw [hwp] at hd
  have hdist : distDir = 'd' :: "ist/".toList := rfl
  have htmpl : ("../templates".toList : FPath) = '.' :: "./templates".toList := rfl
  rw [hdist] at hd
  rw [htmpl] at hp
  have := two_prefixes_head _ _ _ _ _ hd hp
  simp at this

theorem taskWrites_det (T : Transforms) (t : GTask) (fs1 fs2 : FS)
    (h : readsAgree t fs1 fs2) : taskWrites T t fs1 = taskWrites T t fs2 := by
  cases t with
  | sassPreprocessor =>
    simp only [readsAgree] at h
    unfold taskWrites
    rw [h]
  | css =>
    simp only [readsAgree] at h
    unfold taskWrites
    rw [h]
  | ipythonCss =>
    simp only [readsAgree] at h
    unfold taskWrites
    rw [h]
  | js =>
    simp only [readsAgree] at h
    unfold taskWrites
    simp only [List.filterMap_cons, List.filterMap_nil, h.1, h.2]
  | html =>
    simp only [readsAgree] at h
    unfold taskWrites
    rw [h.1]
    have hout : htmlOut T fs1 = htmlOut T fs2 :=
      funext (fun c => htmlOut_congr T fs1 fs2 c h.2.1 h.2.2)
    unfold htmlWrites
    rw [hout]

/-! ## The claims -/

/-- C1: for every source HTML template processed by the `html` task, the
placeholder `<link href="bundle.css"...>` is replaced by a `<style>` element
whose content is the generated CSS bundle read from the build output
directory (`dist/main.css`), the placeholder
`<script src="bundle.js"...></script>` is replaced by a `<script>` element
whose content is the generated JS bundle (`dist/main.js`), and the resulting
HTML is minified before being written. -/
theorem c1_html_inlines_bundles (T : Transforms) (fs : FS) (p : FPath)
    (c bc bj : FContent) (hwf : fs.Wf)
    (hc : fs.read distMainCss = some bc) (hj : fs.read distMainJs = some bj)
    (hmem : (p, c) ∈ srcGlob htmlSrcDir htmlExt fs) :
    (runTask T .html fs).read (distDir ++ baseName p) =
      some (T.htmlmin (inlineJs bj (inlineCss bc c))) := by
  have h := (html_run T fs p c hwf hmem).1
  unfold htmlOut at h
  rw [hc, hj] at h
  simpa using h

theorem c1_html_inlines_bundles_witness :
    FS.Wf [(distMainCss, ['C']), (distMainJs, ['J']),
        ("src/html/index.html".toList, ['H'])] ∧
    (runTask idTransforms .html
        [(distMainCss, ['C']), (distMainJs, ['J']),
          ("src/html/index.html".toList, ['H'])]).read
        (distDir ++ baseName ("src/html/index.html".toList)) =
      some (idTransforms.htmlmin (inlineJs ['J'] (inlineCss ['C'] ['H']))) :=
  ⟨by decide,
    c1_html_inlines_bundles idTransforms _ _ ['H'] ['C'] ['J']
      (by decide) (by decide) (by decide) (by decide)⟩

/-- C2: the `html` task writes the same final output for each template to
both destinations, the preview directory `dist` and the templates directory
`../templates`, and the bytes at the two destinations are identical. -/
theorem c2_html_two_destinations (T : Transforms) (fs : FS) (p : FPath)
    (c : FContent) (hwf : fs.Wf)
    (hmem : (p, c) ∈ srcGlob htmlSrcDir htmlExt fs) :
    (runTask T .html fs).read (templatesDir ++ baseName p) =
      (runTask T .html fs).read (distDir ++ baseName p) ∧
    (runTask T .html fs).read (distDir ++ baseName p) =
      some (htmlOut T fs c) := by
  have h := html_run T fs p c hwf hmem
  exact ⟨h.2.trans h.1.symm, h.1⟩

theorem c2_html_two_destinations_witness :
    FS.Wf [(("src/html/a.html".toList : FPath), ['H'])] ∧
    ((runTask idTransforms .html [(("src/html/a.html".toList : FPath), ['H'])]).read
        (templatesDir ++ baseName ("src/html/a.html".toList)) =
      (runTask idTransforms .html [(("src/html/a.html".toList : FPath), ['H'])]).read
        (distDir ++ baseName ("src/html/a.html".toList)) ∧
    (runTask idTransforms .html [(("src/html/a.html".toList : FPath), ['H'])]).read
        (distDir ++ baseName ("src/html/a.html".toList)) =
      some (htmlOut idTransforms [(("src/html/a.html".toList : FPath), ['H'])] ['H'])) :=
  ⟨by decide,
    c2_html_two_destinations idTransforms _ _ ['H'] (by decide) (by decide)⟩

/-- C4: the `js` task concatenates the module loader library (require.js)
followed by the application script `src/js/main.js`, in that order (joined by
gulp-concat's newline), transpiles the concatenation with babel, minifies it
with uglify, and writes the result to `dist` — the same output directory the
style pipeline writes to. -/
theorem c4_js_pipeline (T : Transforms) (fs : FS) (r m : FContent)
    (h1 : fs.read requireJsPath = some r)
    (h2 : fs.read mainJsSrcPath = some m) :
    (runTask T .js fs).read distMainJs =
      some (T.uglify (T.babel (r ++ '\n' :: m))) ∧
    distDir.isPrefixOf distMainJs = true ∧
    (taskWrites T .css fs).all (fun w => distDir.isPrefixOf w.1) = true := by
  refine ⟨js_run T fs r m h1 h2, by decide, ?_⟩
  apply List.all_eq_true.mpr
  intro w hw
  simpa using writes_dist_css T fs w hw

theorem c4_js_pipeline_witness :
    FS.read [(requireJsPath, ['R']), (mainJsSrcPath, ['M'])] requireJsPath =
        some ['R'] ∧
    ((runTask idTransforms .js [(requireJsPath, ['R']), (mainJsSrcPath, ['M'])]).read
        distMainJs =
      some (idTransforms.uglify (idTransforms.babel (['R'] ++ '\n' :: ['M']))) ∧
    distDir.isPrefixOf distMainJs = true ∧
    (taskWrites idTransforms .css
        [(requireJsPath, ['R']), (mainJsSrcPath, ['M'])]).all
      (fun w => distDir.isPrefixOf w.1) = true) :=
  ⟨by decide, c4_js_pipeline idTransforms _ ['R'] ['M'] (by decide) (by decide)⟩

/-- C6: the style pipeline (`sass-preprocessor` and `css`) and the script
pipeline (`js`) write only under the build output directory `dist/`, and
leave every path under the templates directory `../templates` unchanged. -/
theorem c6_dist_only_frame (T : Transforms) (fs : FS) (p : FPath)
    (hp : ("../templates".toList).isPrefixOf p = true) :
    (taskWrites T .sassPreprocessor fs).all (fun w => distDir.isPrefixOf w.1) = true ∧
    (taskWrites T .css fs).all (fun w => distDir.isPrefixOf w.1) = true ∧
    (taskWrites T .js fs).all (fun w => distDir.isPrefixOf w.1) = true ∧
    (runTask T .sassPreprocessor fs).read p = fs.read p ∧
    (runTask T .css fs).read p = fs.read p ∧
    (runTask T .js fs).read p = fs.read p := by
  refine ⟨?_, ?_, ?_, ?_, ?_, ?_⟩
  · exact List.all_eq_true.mpr (fun w hw => by
      simpa using writes_dist_sassPre T fs w hw)
  · exact List.all_eq_true.mpr (fun w hw => by
      simpa using writes_dist_css T fs w hw)
  · exact List.all_eq_true.mpr (fun w hw => by
      simpa using writes_dist_js T fs w hw)
  · exact runTask_templates_frame T _ fs p (writes_dist_sassPre T fs) hp
  · exact runTask_templates_frame T _ fs p (writes_dist_css T fs) hp
  · exact runTask_templates_frame T _ fs p (writes_dist_js T fs) hp

theorem c6_dist_only_frame_witness :
    (("../templates".toList).isPrefixOf templatesIpythonCss = true) ∧
    ((taskWrites idTransforms .sassPreprocessor
        [(("src/scss/x.scss".toList : FPath), ['S'])]).all
      (fun w => distDir.isPrefixOf w.1) = true ∧
    (taskWrites idTransforms .css
        [(("src/scss/x.scss".toList : FPath), ['S'])]).all
      (fun w => distDir.isPrefixOf w.1) = true ∧
    (taskWrites idTransforms .js
        [(("src/scss/x.scss".toList : FPath), ['S'])]).all
      (fun w => distDir.isPrefixOf w.1) = true ∧
    (runTask idTransforms .sassPreprocessor
        [(("src/scss/x.scss".toList : FPath), ['S'])]).read templatesIpythonCss =
      FS.read [(("src/scss/x.scss".toList : FPath), ['S'])] templatesIpythonCss ∧
    (runTask idTransforms .css
        [(("src/scss/x.scss".toList : FPath), ['S'])]).read templatesIpythonCss =
      FS.read [(("src/scss/x.scss".toList : FPath), ['S'])] templatesIpythonCss ∧
    (runTask idTransforms .js
        [(("src/scss/x.scss".toList : FPath), ['S'])]).read templatesIpythonCss =
      FS.read [(("src/scss/x.scss".toList : FPath), ['S'])] templatesIpythonCss) :=
  ⟨by decide, c6_dist_only_frame idTransforms _ templatesIpythonCss (by decide)⟩

/-- C7: each task is a deterministic function of what it reads: two runs of
the same task over file systems that agree on the task's source files (and
the bundles it reads, for `html`) produce identical write lists — byte-equal
outputs, with no other dependence on the environment. -/
theorem c7_determinism (T : Transforms) (t : GTask) (fs1 fs2 : FS)
    (h : readsAgree t fs1 fs2) :
    taskWrites T t fs1 = taskWrites T t fs2 :=
  taskWrites_det T t fs1 fs2 h

theorem c7_determinism_witness :
    readsAgree GTask.js
        [(requireJsPath, ['R']), (mainJsSrcPath, ['M']), (['z'], ['Z'])]
        [(mainJsSrcPath, ['M']), (requireJsPath, ['R'])] ∧
    taskWrites idTransforms GTask.js
        [(requireJsPath, ['R']), (mainJsSrcPath, ['M']), (['z'], ['Z'])] =
      taskWrites idTransforms GTask.js
        [(mainJsSrcPath, ['M']), (requireJsPath, ['R'])] :=
  ⟨by decide,
    c7_determinism idTransforms GTask.js _ _ (by decide)⟩

/-- C10: the `ipython-css` task copies `dist/ipython.css` byte-for-byte into
`../templates`, and in every dependency-respecting schedule the copy happens
only after the `css` task has completed. -/
theorem c10_ipython_copy (T : Transforms) (l1 l2 : List GTask) (fs : FS)
    (c : FContent)
    (hv : validSched (l1 ++ GTask.ipythonCss :: l2) = true)
    (hr : (runSched T l1 fs).read distIpythonCss = some c) :
    (runSched T (l1 ++ [GTask.ipythonCss]) fs).read templatesIpythonCss =
      some c ∧
    GTask.css ∈ l1 := by
  constructor
  · rw [runSched_append, runSched_cons]
    show ((runSched T [] (runTask T .ipythonCss (runSched T l1 fs))).read
      templatesIpythonCss) = some c
    exact ipy_run T _ c hr
  · exact validSched_mem l1 l2 .ipythonCss hv .css (by simp [deps])

theorem c10_ipython_copy_witness :
    validSched ([GTask.sassPreprocessor, GTask.css] ++ [GTask.ipythonCss]) = true ∧
    (runSched idTransforms [GTask.sassPreprocessor, GTask.css]
        [(("dist/scss/ipython.scss".toList : FPath), ['X'])]).read distIpythonCss =
      some ['X'] ∧
    ((runSched idTransforms
        ([GTask.sassPreprocessor, GTask.css] ++ [GTask.ipythonCss])
        [(("dist/scss/ipython.scss".toList : FPath), ['X'])]).read
        templatesIpythonCss = some ['X'] ∧
    GTask.css ∈ [GTask.sassPreprocessor, GTask.css]) :=
  ⟨by decide, by decide,
    c10_ipython_copy idTransforms [GTask.sassPreprocessor, GTask.css] []
      [(("dist/scss/ipython.scss".toList : FPath), ['X'])] ['X']
      (by decide) (by decide)⟩

/-- C3 (counterexample): the `css` task does not concatenate its stylesheet
sources into one output.  With two sources under `dist/scss`, it performs two
writes (one compiled output per source), and no written content equals the
transformed concatenation of the sources (`cssBundleSpec`). -/
theorem c3_counterexample :
    (taskWrites idTransforms .css
      [(("dist/scss/a.scss".toList : FPath), ['A']),
       (("dist/scss/b.scss".toList : FPath), ['B'])]).length = 2 ∧
    ¬ (taskWrites idTransforms .css
      [(("dist/scss/a.scss".toList : FPath), ['A']),
       (("dist/scss/b.scss".toList : FPath), ['B'])]).length = 1 ∧
    (taskWrites idTransforms .css
      [(("dist/scss/a.scss".toList : FPath), ['A']),
       (("dist/scss/b.scss".toList : FPath), ['B'])]).all
      (fun w => w.2 != cssBundleSpec idTransforms
        [(("dist/scss/a.scss".toList : FPath), ['A']),
         (("dist/scss/b.scss".toList : FPath), ['B'])]) = true := by
  decide

/-- C3 (amended): the style pipeline compiles each stylesheet source under
`dist/scss` separately — Sass, then autoprefixer, then `postcss-import`
inlining, then cssnano minification, in that order — and writes one CSS
output per source into the build output directory `dist`; it does not
concatenate its sources into a single bundle. -/
theorem c3_css_per_source (T : Transforms) (fs : FS) (p : FPath)
    (c : FContent) (hwf : fs.Wf)
    (hmem : (p, c) ∈ srcGlob scssDistDir scssExt fs) :
    (runTask T .css fs).read (distDir ++ chExt (baseName p)) =
      some (T.cssnano (T.atImport (T.autoprefixer (T.sass c)))) ∧
    (taskWrites T .css fs).all (fun w => distDir.isPrefixOf w.1) = true := by
  constructor
  · exact css_run T fs p c hwf hmem
  · exact List.all_eq_true.mpr (fun w hw => by
      simpa using writes_dist_css T fs w hw)

theorem c3_css_per_source_witness :
    FS.Wf [(("dist/scss/main.scss".toList : FPath), ['X'])] ∧
    ((runTask idTransforms .css
        [(("dist/scss/main.scss".toList : FPath), ['X'])]).read
        (distDir ++ chExt (baseName ("dist/scss/main.scss".toList))) =
      some (idTransforms.cssnano (idTransforms.atImport
        (idTransforms.autoprefixer (idTransforms.sass ['X'])))) ∧
    (taskWrites idTransforms .css
        [(("dist/scss/main.scss".toList : FPath), ['X'])]).all
      (fun w => distDir.isPrefixOf w.1) = true) :=
  ⟨by decide,
    c3_css_per_source idTransforms _ _ ['X'] (by decide) (by decide)⟩

/-- C5: in every dependency-respecting schedule that runs `html`, the `css`
and `js` tasks (and hence, transitively, `sass-preprocessor`) are completed
beforehand, and at the moment the `html` task starts — when its placeholder
substitutions read the bundles — both `dist/main.css` and `dist/main.js`
exist in the output directory (given that the pipeline inputs exist). -/
theorem c5_html_after_bundles (T : Transforms) (l1 l2 : List GTask) (fs : FS)
    (hv : validSched (l1 ++ GTask.html :: l2) = true)
    (h1 : (fs.read srcScssMain).isSome = true)
    (h2 : (fs.read requireJsPath).isSome = true)
    (h3 : (fs.read mainJsSrcPath).isSome = true) :
    GTask.css ∈ l1 ∧ GTask.js ∈ l1 ∧
    ((runSched T l1 fs).read distMainCss).isSome = true ∧
    ((runSched T l1 fs).read distMainJs).isSome = true := by
  have hcss : GTask.css ∈ l1 :=
    validSched_mem l1 l2 .html hv .css (by simp [deps])
  have hjs : GTask.js ∈ l1 :=
    validSched_mem l1 l2 .html hv .js (by simp [deps])
  obtain ⟨x, y, hxy⟩ := List.append_of_mem hcss
  have hv2 : validSched (x ++ GTask.css :: (y ++ GTask.html :: l2)) = true := by
    rw [hxy] at hv
    simpa [List.append_assoc] using hv
  have hsp : GTask.sassPreprocessor ∈ x :=
    validSched_mem x _ .css hv2 .sassPreprocessor (by simp [deps])
  obtain ⟨x1, x2, hx⟩ := List.append_of_mem hsp
  have hl1 : l1 = x1 ++ GTask.sassPreprocessor :: (x2 ++ GTask.css :: y) := by
    rw [hxy, hx]
    simp [List.append_assoc]
  have hcssr := sched_css_ready T fs h1 x1 x2 y
  rw [← hl1] at hcssr
  obtain ⟨z1, z2, hz⟩ := List.append_of_mem hjs
  have hjsr := sched_js_ready T fs h2 h3 z1 z2
  rw [← hz] at hjsr
  exact ⟨hcss, hjs, hcssr, hjsr⟩

theorem c5_html_after_bundles_witness :
    validSched ([GTask.sassPreprocessor, GTask.css, GTask.js] ++
      GTask.html :: []) = true ∧
    (GTask.css ∈ [GTask.sassPreprocessor, GTask.css, GTask.js] ∧
    GTask.js ∈ [GTask.sassPreprocessor, GTask.css, GTask.js] ∧
    ((runSched idTransforms [GTask.sassPreprocessor, GTask.css, GTask.js]
        [(srcScssMain, ['S']), (requireJsPath, ['R']),
          (mainJsSrcPath, ['M'])]).read distMainCss).isSome = true ∧
    ((runSched idTransforms [GTask.sassPreprocessor, GTask.css, GTask.js]
        [(srcScssMain, ['S']), (requireJsPath, ['R']),
          (mainJsSrcPath, ['M'])]).read distMainJs).isSome = true) :=
  ⟨by decide,
    c5_html_after_bundles idTransforms [GTask.sassPreprocessor, GTask.css,
      GTask.js] []
      [(srcScssMain, ['S']), (requireJsPath, ['R']), (mainJsSrcPath, ['M'])]
      (by decide) (by decide) (by decide) (by decide)⟩

/-- C8: the `sass-preprocessor` task rewrites, in every `.scss` source under
`src/scss`, each line beginning with `@import "~path"` (or `@import '~path'`)
to `@import "path"` — stripping the tilde and keeping every character outside
the matched import (lines that do not match are unchanged) — and writes the
result under `dist/scss`; the `css` task then reads its sources from
`dist/scss`, not from the original `src/scss` files. -/
theorem c8_sass_preprocessor (T : Transforms) (fs fs2 : FS) (p : FPath)
    (c q r l : FContent)
    (hwf : fs.Wf) (hmem : (p, c) ∈ srcGlob scssSrcDir scssExt fs)
    (hq : ∀ ch ∈ q, (ch != '"') = true)
    (hq2 : ∀ ch ∈ q, (ch != squote) = true)
    (hnm : lineMatches l = false)
    (hagree : srcGlob scssDistDir scssExt fs = srcGlob scssDistDir scssExt fs2) :
    (runTask T .sassPreprocessor fs).read (scssDistDir ++ baseName p) =
      some (tildeStrip c) ∧
    rewriteLine (importTildeStart '"' ++ (q ++ '"' :: r)) =
      "@import \"".toList ++ q ++ '"' :: r ∧
    rewriteLine (importTildeStart squote ++ (q ++ squote :: r)) =
      "@import \"".toList ++ q ++ '"' :: r ∧
    rewriteLine l = l ∧
    taskWrites T .css fs = taskWrites T .css fs2 :=
  ⟨sassPre_run T fs p c hwf hmem,
    rewriteLine_dq q r hq,
    rewriteLine_sq q r hq2,
    rewriteLine_not_matching l hnm,
    taskWrites_det T .css fs fs2 (by simpa [readsAgree] using hagree)⟩

theorem c8_sass_preprocessor_witness :
    FS.Wf [(srcScssMain, "@import \"~lib/x\";\nbody {}".toList)] ∧
    lineMatches "body {}".toList = false ∧
    ((runTask idTransforms .sassPreprocessor
        [(srcScssMain, "@import \"~lib/x\";\nbody {}".toList)]).read
        (scssDistDir ++ baseName srcScssMain) =
      some (tildeStrip "@import \"~lib/x\";\nbody {}".toList) ∧
    rewriteLine (importTildeStart '"' ++ ("lib/x".toList ++ '"' :: ";".toList)) =
      "@import \"".toList ++ "lib/x".toList ++ '"' :: ";".toList ∧
    rewriteLine (importTildeStart squote ++ ("lib/x".toList ++ squote :: ";".toList)) =
      "@import \"".toList ++ "lib/x".toList ++ '"' :: ";".toList ∧
    rewriteLine "body {}".toList = "body {}".toList ∧
    taskWrites idTransforms .css
        [(srcScssMain, "@import \"~lib/x\";\nbody {}".toList)] =
      taskWrites idTransforms .css []) :=
  ⟨by decide, by decide,
    c8_sass_preprocessor idTransforms
      [(srcScssMain, "@import \"~lib/x\";\nbody {}".toList)] []
      srcScssMain "@import \"~lib/x\";\nbody {}".toList
      "lib/x".toList ";".toList "body {}".toList
      (by decide) (by decide) (by decide) (by decide) (by decide) (by decide)⟩

/-- C9: the placeholder replacements of the `html` task are not global: only
the leftmost occurrence of each placeholder tag is replaced (a second
occurrence, and everything after it, passes through unchanged), and the
inserted `<style>`/`<script>` element does not depend on the attribute tail
of the matched tag. -/
theorem c9_first_occurrence_only (style script u v w u2 v2 w2 a a2 b b2 : FContent)
    (hu : ∀ t ∈ u.tails, t ≠ [] →
      matchAt cssPat (t ++ (cssTag a ++ (v ++ cssTag a2 ++ w))) = none)
    (ha : ∀ ch ∈ a, (ch != '>') = true)
    (hu2 : ∀ t ∈ u2.tails, t ≠ [] →
      matchAt jsPat (t ++ (jsTag b ++ (v2 ++ jsTag b2 ++ w2))) = none)
    (hb : ∀ ch ∈ b, (ch != '>') = true) :
    inlineCss style (u ++ (cssTag a ++ (v ++ cssTag a2 ++ w))) =
      u ++ (styleElem style ++ (v ++ cssTag a2 ++ w)) ∧
    inlineJs script (u2 ++ (jsTag b ++ (v2 ++ jsTag b2 ++ w2))) =
      u2 ++ (scriptElem script ++ (v2 ++ jsTag b2 ++ w2)) := by
  constructor
  · have hsh : cssTag a ++ (v ++ cssTag a2 ++ w) =
        cssPat.lit1 ++ (a ++ '>' :: (cssPat.lit2 ++ (v ++ cssTag a2 ++ w))) := by
      simp [cssTag, cssPat, List.append_assoc]
    unfold inlineCss
    rw [hsh] at hu
    rw [hsh]
    rw [replaceFirst_mid cssPat (fun _ => styleElem style) u a
      (v ++ cssTag a2 ++ w) '<' ("link href=\"bundle.css\"".toList) rfl hu ha]
  · have hsh : jsTag b ++ (v2 ++ jsTag b2 ++ w2) =
        jsPat.lit1 ++ (b ++ '>' :: (jsPat.lit2 ++ (v2 ++ jsTag b2 ++ w2))) := by
      simp [jsTag, jsPat, List.append_assoc]
    unfold inlineJs
    rw [hsh] at hu2
    rw [hsh]
    rw [replaceFirst_mid jsPat (fun _ => scriptElem script) u2 b
      (v2 ++ jsTag b2 ++ w2) '<' ("script src=\"bundle.js\"".toList) rfl hu2 hb]

theorem c9_first_occurrence_only_witness :
    (∀ t ∈ ("AB".toList : FContent).tails, t ≠ [] →
      matchAt cssPat (t ++ (cssTag " x".toList ++
        ("-".toList ++ cssTag " y".toList ++ "E".toList))) = none) ∧
    (∀ t ∈ ("CD".toList : FContent).tails, t ≠ [] →
      matchAt jsPat (t ++ (jsTag " r".toList ++
        ("_".toList ++ jsTag " s".toList ++ "F".toList))) = none) ∧
    (inlineCss ['S'] ("AB".toList ++ (cssTag " x".toList ++
        ("-".toList ++ cssTag " y".toList ++ "E".toList))) =
      "AB".toList ++ (styleElem ['S'] ++
        ("-".toList ++ cssTag " y".toList ++ "E".toList)) ∧
    inlineJs ['J'] ("CD".toList ++ (jsTag " r".toList ++
        ("_".toList ++ jsTag " s".toList ++ "F".toList))) =
      "CD".toList ++ (scriptElem ['J'] ++
        ("_".toList ++ jsTag " s".toList ++ "F".toList))) :=
  ⟨by decide, by decide,
    c9_first_occurrence_only ['S'] ['J'] "AB".toList "-".toList "E".toList
      "CD".toList "_".toList "F".toList " x".toList " y".toList
      " r".toList " s".toList
      (by decide) (by decide) (by decide) (by decide)⟩
